import Mathlib

/-!
Verification of the CAPM metrics script (capm.py).

The development shallowly embeds the algorithmic core of the script:
per-row return transforms, the date join of the three series, the
closed-form least-squares fit actually performed by the patsy formula,
the Sharpe, Treynor and annual-return calculators, the accumulator
lists and the main csv loop.  Prices, returns and dates are embedded as
real numbers and integers (days); a missing value (NaN) in a data-frame
cell is embedded as Option.none.  A Python exception raised by a
computation is embedded by returning Except.error; numpy float
operations that do not raise (such as division by zero, which yields a
non-finite float and a warning) are embedded as total real functions,
where Lean division by zero yields 0.
-/

namespace Capm

/-- Exceptions that the script can raise while processing one
configuration row.  dataUnavailable models the KeyError raised by
create_dataframe when the provider returned no price records (dropping
the unused columns of an empty frame fails).  zeroElapsedPeriod models
the ZeroDivisionError raised by calc_annual_return at the integer
division 365 / num_of_days when the elapsed-day count is 0.
indexError models the IndexError raised by df.iloc[0] on an empty
frame. -/
inductive PipeError where
  | dataUnavailable : PipeError
  | zeroElapsedPeriod : PipeError
  | indexError : PipeError
deriving DecidableEq, Repr

/-- One row of a per-instrument data frame after create_dataframe: a
date (embedded as a day number), the price or yield level, and the
computed return.  A cell holding NaN is embedded as none; the level
column is produced by dropna and is in fact always present, but the
return column of the first row of a price frame is NaN. -/
structure SRow where
  date : ℤ
  level : Option ℝ
  ret : Option ℝ

/-- One row of the merged data frame after the two inner merges on
date, dropna, and the column selection
[date, firm, market, rf, r_firm, r_market, r_rf] (lines 253-255). -/
structure Obs where
  date : ℤ
  firm : ℝ
  market : ℝ
  rf : ℝ
  r_firm : ℝ
  r_market : ℝ
  r_rf : ℝ

/-- Boolean test that a series row carries no missing value in any
column. -/
def complete (x : SRow) : Bool :=
  x.level.isSome && x.ret.isSome

/-- Embedding of pandas Series.pct_change on the level column (line
85): the first entry is NaN (none) and entry i for i greater than 0 is
level i divided by level i-1, minus 1. -/
noncomputable def pctChange : List ℝ → List (Option ℝ)
  | [] => []
  | x :: t => none :: List.zipWith (fun prev cur => some (cur / prev - 1)) (x :: t) t

/-- Rows built by create_price_data_frame (lines 70-86) from the raw
(date, adjusted close) records that survived dropna: the level column
is the adjusted close and the return column is its pct_change. -/
noncomputable def mkPriceRows (raw : List (ℤ × ℝ)) : List SRow :=
  (raw.zip (pctChange (raw.map Prod.snd))).map
    (fun pr => { date := pr.1.1, level := some pr.1.2, ret := pr.2 })

/-- Rows built by create_return_data_frame (lines 88-105) from the raw
(date, yield) records: the level column is divided by 100 in place and
the return column is (1 + level) to the power 1/365, minus 1, applied
independently per row. -/
noncomputable def mkReturnRows (raw : List (ℤ × ℝ)) : List SRow :=
  raw.map (fun p =>
    { date := p.1
      level := some (p.2 / 100)
      ret := some (Real.rpow (1 + p.2 / 100) (1 / 365) - 1) })

/-- Embedding of create_price_data_frame as called from the main loop:
on an empty provider response the column drop in create_dataframe
raises (KeyError); otherwise the frame of mkPriceRows is returned. -/
noncomputable def create_price_data_frame :
    List (ℤ × ℝ) → Except PipeError (List SRow)
  | [] => .error .dataUnavailable
  | p :: t => .ok (mkPriceRows (p :: t))

/-- Embedding of create_return_data_frame as called from the main
loop; the empty-response behaviour is as for create_price_data_frame. -/
noncomputable def create_return_data_frame :
    List (ℤ × ℝ) → Except PipeError (List SRow)
  | [] => .error .dataUnavailable
  | p :: t => .ok (mkReturnRows (p :: t))

/-- First row of the list whose date equals d, none when no row
matches: the row a pandas inner merge on date pairs a left row with
when dates are unique. -/
def lookupDate (d : ℤ) : List SRow → Option SRow
  | [] => none
  | b :: t => if b.date = d then some b else lookupDate d t

/-- Combination of one firm row, one market row and one risk-free row
sharing a date into a merged row, provided no cell is missing; a
missing cell makes the merged row one that dropna removes (line 254). -/
def rowJoin (a b c : SRow) : Option Obs :=
  match a.level, a.ret, b.level, b.ret, c.level, c.ret with
  | some fl, some fr, some ml, some mr, some rl, some rr =>
      some { date := a.date, firm := fl, market := ml, rf := rl,
             r_firm := fr, r_market := mr, r_rf := rr }
  | _, _, _, _, _, _ => none

/-- Merged row produced for one firm row: the market and risk-free
rows at the same date are looked up and joined, and the row survives
dropna only when every cell is present. -/
def alignRow (m r : List SRow) (a : SRow) : Option Obs :=
  (lookupDate a.date m).bind fun b =>
    (lookupDate a.date r).bind fun c => rowJoin a b c

/-- Embedding of lines 253-255: the two inner merges on date followed
by dropna and the column selection.  A pandas inner merge keeps the
order of the left keys, so the result walks the firm rows in order. -/
def align (f m r : List SRow) : List Obs :=
  f.filterMap (alignRow m r)

/-- Embedding of pandas Series.mean: the sum divided by the count. -/
noncomputable def seriesMean (xs : List ℝ) : ℝ :=
  xs.sum / xs.length

/-- Embedding of pandas Series.std with its default ddof of 1: the
square root of the sum of squared deviations from the mean divided by
the count minus 1. -/
noncomputable def seriesStd (xs : List ℝ) : ℝ :=
  Real.sqrt (((xs.map (fun x => (x - seriesMean xs) ^ 2)).sum) / ((xs.length : ℝ) - 1))

/-- Closed form of the least-squares line fit of ys on xs with an
intercept, as the normal equations solve it for a nonsingular design:
the slope is the centered cross sum over the centered square sum and
the intercept is the mean of ys minus the slope times the mean of xs.
Returned as (intercept, slope). -/
noncomputable def ols_fit (xs ys : List ℝ) : ℝ × ℝ :=
  let mx := seriesMean xs
  let my := seriesMean ys
  let sxx := ((xs.map (fun x => (x - mx) ^ 2)).sum)
  let sxy := (((xs.zip ys).map (fun p => (p.1 - mx) * (p.2 - my))).sum)
  let beta := sxy / sxx
  (my - beta * mx, beta)

/-- Embedding of lines 258-260.  In the patsy formula language used by
statsmodels.formula.api.ols, the minus sign removes a term from a
formula side instead of subtracting columns, so the fitted model of
the formula string (r_firm - r_rf ~ r_market - r_rf) is r_firm
regressed on an intercept and r_market alone: both r_rf terms are
discarded.  Consistently, line 260 reads the slope from
model.params[r_market].  Returns (alpha, beta). -/
noncomputable def fit_market_model (df : List Obs) : ℝ × ℝ :=
  ols_fit (df.map Obs.r_market) (df.map Obs.r_firm)

/-- Follows the spec text for MarketModelFitter, stated for comparison
with fit_market_model: ordinary least squares of y = r_firm - r_rf on
x = r_market - r_rf, computed per row.  Returns (alpha, beta). -/
noncomputable def fit_market_model_spec (df : List Obs) : ℝ × ℝ :=
  ols_fit (df.map (fun o => o.r_market - o.r_rf))
    (df.map (fun o => o.r_firm - o.r_rf))

/-- Embedding of calc_sharpe (lines 107-122): the difference of the
column means of r_firm and r_rf divided by the standard deviation of
r_firm.  The division is a numpy float division and raises nothing;
the function is total. -/
noncomputable def calc_sharpe (df : List Obs) : ℝ :=
  (seriesMean (df.map Obs.r_firm) - seriesMean (df.map Obs.r_rf)) /
    seriesStd (df.map Obs.r_firm)

/-- Embedding of calc_treynor (lines 124-139): the difference of the
column means of r_firm and r_rf divided by beta.  The division is a
numpy float division and raises nothing; the function is total. -/
noncomputable def calc_treynor (df : List Obs) (beta : ℝ) : ℝ :=
  (seriesMean (df.map Obs.r_firm) - seriesMean (df.map Obs.r_rf)) / beta

/-- Embedding of calc_annual_return (lines 141-161): total return from
the first to the last firm level, elapsed days from the first to the
last date, annualized with exponent 365 over the elapsed days.  On an
empty frame df.iloc[0] raises IndexError; when the elapsed-day count
is 0 the integer division 365 / num_of_days raises
ZeroDivisionError. -/
noncomputable def calc_annual_return (df : List Obs) : Except PipeError ℝ :=
  match df with
  | [] => .error .indexError
  | a :: t =>
      if ((a :: t).getLast (List.cons_ne_nil a t)).date - a.date = 0 then
        .error .zeroElapsedPeriod
      else
        .ok (Real.rpow (1 + (((a :: t).getLast (List.cons_ne_nil a t)).firm / a.firm - 1))
          (365 / ((((a :: t).getLast (List.cons_ne_nil a t)).date - a.date : ℤ) : ℝ)) - 1)

/-- Metric values computed for one configuration row. -/
structure Metrics where
  alpha : ℝ
  beta : ℝ
  sharpe : ℝ
  treynor : ℝ
  annual : ℝ

/-- The eight module-level accumulator lists of lines 19-26. -/
structure Accum where
  firms : List String
  start_dates : List String
  end_dates : List String
  alphas : List ℝ
  betas : List ℝ
  sharpes : List ℝ
  treynors : List ℝ
  annuals : List ℝ

/-- The accumulator lists at module load: eight empty lists. -/
def emptyAccum : Accum :=
  { firms := [], start_dates := [], end_dates := [],
    alphas := [], betas := [], sharpes := [], treynors := [], annuals := [] }

/-- Embedding of append_data (lines 163-185): each of the eight values
is appended to its designated list. -/
def append_data (s : Accum) (firm startDate endDate : String)
    (alpha beta sharpe_ratio treynor_ratio annual_return : ℝ) : Accum :=
  { firms := s.firms ++ [firm]
    start_dates := s.start_dates ++ [startDate]
    end_dates := s.end_dates ++ [endDate]
    alphas := s.alphas ++ [alpha]
    betas := s.betas ++ [beta]
    sharpes := s.sharpes ++ [sharpe_ratio]
    treynors := s.treynors ++ [treynor_ratio]
    annuals := s.annuals ++ [annual_return] }

/-- One configuration row of firms_dates.csv together with the raw
provider responses its three fetches return (the fetches are external
I/O; the raw data is passed in so the per-row pipeline is a function). -/
structure RowInput where
  firmName : String
  startDate : String
  endDate : String
  rawFirm : List (ℤ × ℝ)
  rawMarket : List (ℤ × ℝ)
  rawRf : List (ℤ × ℝ)

/-- Embedding of the body of the main loop for one configuration row
(lines 248-264): build the three frames, merge and clean them, fit the
model, and compute the three ratios.  The first exception raised
aborts the row with that error; no statement of the body catches
anything. -/
noncomputable def process_row (r : RowInput) : Except PipeError Metrics := do
  let firmDf ← create_price_data_frame r.rawFirm
  let marketDf ← create_price_data_frame r.rawMarket
  let rfDf ← create_return_data_frame r.rawRf
  let df := align firmDf marketDf rfDf
  let ab := fit_market_model df
  let sharpe_ratio := calc_sharpe df
  let treynor_ratio := calc_treynor df ab.2
  let annual_return ← calc_annual_return df
  pure { alpha := ab.1, beta := ab.2, sharpe := sharpe_ratio,
         treynor := treynor_ratio, annual := annual_return }

/-- Embedding of the main csv loop (lines 233-271): the rows are
processed in order and each success appends its metrics to the
accumulator lists via append_data.  The loop contains no exception
handler, so the first error raised by any row propagates and the
script dies: no accumulator state after the failing row is ever
reached and the final results frame of lines 273-285 is never built. -/
noncomputable def run_loop : List RowInput → Accum → Except PipeError Accum
  | [], s => .ok s
  | r :: rs, s =>
      match process_row r with
      | .error e => .error e
      | .ok m =>
          run_loop rs
            (append_data s r.firmName r.startDate r.endDate
              m.alpha m.beta m.sharpe m.treynor m.annual)

/-- Statement that the eight accumulator lists all have the length of
the firms list, so that the final results frame of lines 273-285 is
rectangular. -/
def rectangular (s : Accum) : Prop :=
  s.start_dates.length = s.firms.length ∧
  s.end_dates.length = s.firms.length ∧
  s.alphas.length = s.firms.length ∧
  s.betas.length = s.firms.length ∧
  s.sharpes.length = s.firms.length ∧
  s.treynors.length = s.firms.length ∧
  s.annuals.length = s.firms.length

/-- Aligned frame with three rows on which the patsy term-removal
semantics of the formula string and the excess-return regression of
the spec give different coefficients: per row, the returns
(r_firm, r_market, r_rf) are (0, 0, 0), (1, 1, 0) and (2, 1, 1); the
level columns are irrelevant to the fit and are set to 0. -/
def c1df : List Obs :=
  [⟨0, 0, 0, 0, 0, 0, 0⟩, ⟨1, 0, 0, 0, 1, 1, 0⟩, ⟨2, 0, 0, 0, 2, 1, 1⟩]

/-- Configuration row whose firm fetch returns no records, so that its
processing raises while building the first frame. -/
def badRow : RowInput :=
  { firmName := "BAD", startDate := "s", endDate := "e",
    rawFirm := [], rawMarket := [((0 : ℤ), (1 : ℝ))], rawRf := [((0 : ℤ), (1 : ℝ))] }

/-- Configuration row whose three fetches return three days of data,
so that its processing runs to completion. -/
def goodRow : RowInput :=
  { firmName := "GOOD", startDate := "s", endDate := "e",
    rawFirm := [((0 : ℤ), (100 : ℝ)), ((1 : ℤ), (110 : ℝ)), ((2 : ℤ), (121 : ℝ))],
    rawMarket := [((0 : ℤ), (100 : ℝ)), ((1 : ℤ), (110 : ℝ)), ((2 : ℤ), (121 : ℝ))],
    rawRf := [((0 : ℤ), (0 : ℝ)), ((1 : ℤ), (0 : ℝ)), ((2 : ℤ), (0 : ℝ))] }

/-- Second configuration row that also processes to completion, with
different prices. -/
def goodRow2 : RowInput :=
  { firmName := "GOOD2", startDate := "s2", endDate := "e2",
    rawFirm := [((0 : ℤ), (100 : ℝ)), ((1 : ℤ), (120 : ℝ)), ((2 : ℤ), (150 : ℝ))],
    rawMarket := [((0 : ℤ), (100 : ℝ)), ((1 : ℤ), (110 : ℝ)), ((2 : ℤ), (121 : ℝ))],
    rawRf := [((0 : ℤ), (0 : ℝ)), ((1 : ℤ), (0 : ℝ)), ((2 : ℤ), (0 : ℝ))] }

/-- Aligned frame of two rows whose r_firm column is constant at 1/10,
so that the sample standard deviation of r_firm is zero. -/
noncomputable def c4df : List Obs :=
  [⟨0, 0, 0, 0, 1 / 10, 0, 0⟩, ⟨1, 0, 0, 0, 1 / 10, 1, 0⟩]

/-- Aligned frame of two rows whose r_firm column is constant at 1/5. -/
noncomputable def c4df2 : List Obs :=
  [⟨0, 0, 0, 0, 1 / 5, 0, 0⟩, ⟨1, 0, 0, 0, 1 / 5, 1, 0⟩]

/-- Firm series for the aligner example: dates 0 and 1, with the
return cell of the first row missing. -/
def c5f : List SRow := [⟨0, some 1, none⟩, ⟨1, some 1, some 1⟩]

/-- Market series for the aligner example: dates 1 and 2, complete. -/
def c5m : List SRow := [⟨1, some 1, some 1⟩, ⟨2, some 1, some 1⟩]

/-- Risk-free series for the aligner example: dates 0 and 1, complete. -/
def c5r : List SRow := [⟨0, some 1, some 1⟩, ⟨1, some 1, some 1⟩]

/-- Aligned frame of two rows used to instantiate the Sharpe formula:
r_firm is 1 then 2, r_rf is 0. -/
def c6df : List Obs :=
  [⟨0, 0, 0, 0, 1, 0, 0⟩, ⟨1, 0, 0, 0, 2, 0, 0⟩]

/-- Aligned frame whose single row makes the first and last dates
coincide. -/
def c3df : List Obs := [⟨7, 100, 0, 0, 0, 0, 0⟩]

/-- Aligned frame spanning exactly 365 elapsed days with firm levels
100 and 110. -/
def c9df : List Obs :=
  [⟨0, 100, 0, 0, 0, 0, 0⟩, ⟨365, 110, 0, 0, 0, 0, 0⟩]

/-- Helper: getD through a map, valid below the length. -/
theorem getD_map_of_lt {α β : Type _} (f : α → β) (d : β) (d0 : α) :
    ∀ (l : List α) (i : ℕ), i < l.length → (l.map f).getD i d = f (l.getD i d0)
  | [], i, h => absurd h (by simp)
  | x :: t, 0, _ => rfl
  | x :: t, i + 1, h =>
      getD_map_of_lt f d d0 t i (by simpa using h)

/-- Helper: getD through a zipWith, valid below both lengths. -/
theorem getD_zipWith_of_lt {α β γ : Type _} (g : α → β → γ) (d : γ) (d₁ : α) (d₂ : β) :
    ∀ (l₁ : List α) (l₂ : List β) (i : ℕ), i < l₁.length → i < l₂.length →
      (List.zipWith g l₁ l₂).getD i d = g (l₁.getD i d₁) (l₂.getD i d₂)
  | [], _, i, h₁, _ => absurd h₁ (by simp)
  | _ :: _, [], i, _, h₂ => absurd h₂ (by simp)
  | x :: t, y :: s, 0, _, _ => rfl
  | x :: t, y :: s, i + 1, h₁, h₂ =>
      getD_zipWith_of_lt g d d₁ d₂ t s i (by simpa using h₁) (by simpa using h₂)

/-- Helper: pct_change preserves the length of the series. -/
theorem pctChange_length (xs : List ℝ) : (pctChange xs).length = xs.length := by
  cases xs with
  | nil => rfl
  | cons x t =>
      simp only [pctChange, List.length_cons, List.length_zipWith]
      omega

/-- Helper: the return column of a price frame is the pct_change of
the level column. -/
theorem mkPriceRows_ret_col (raw : List (ℤ × ℝ)) :
    (mkPriceRows raw).map SRow.ret = pctChange (raw.map Prod.snd) := by
  unfold mkPriceRows
  rw [List.map_map]
  have hc : (SRow.ret ∘ fun pr : (ℤ × ℝ) × Option ℝ =>
      SRow.mk pr.1.1 (some pr.1.2) pr.2) = Prod.snd := rfl
  rw [hc]
  exact List.map_snd_zip raw _ (by rw [pctChange_length, List.length_map])

/-- Helper: the level column of a price frame is the raw adjusted
close column. -/
theorem mkPriceRows_level_col (raw : List (ℤ × ℝ)) :
    (mkPriceRows raw).map SRow.level = raw.map (fun p => some p.2) := by
  unfold mkPriceRows
  rw [List.map_map]
  have hc : (SRow.level ∘ fun pr : (ℤ × ℝ) × Option ℝ =>
      SRow.mk pr.1.1 (some pr.1.2) pr.2) = (fun p : ℤ × ℝ => some p.2) ∘ Prod.fst := rfl
  rw [hc, ← List.map_map]
  rw [List.map_fst_zip raw _ (by rw [pctChange_length, List.length_map])]

/-- Helper: entry i+1 of a pct_change series is the ratio of
consecutive levels minus 1. -/
theorem pctChange_getD_succ (xs : List ℝ) (i : ℕ) (h : i + 1 < xs.length) :
    (pctChange xs).getD (i + 1) none = some (xs.getD (i + 1) 0 / xs.getD i 0 - 1) := by
  cases xs with
  | nil => simp at h
  | cons x t =>
      show (List.zipWith (fun prev cur => some (cur / prev - 1)) (x :: t) t).getD i none = _
      rw [getD_zipWith_of_lt _ _ 0 0 (x :: t) t i (by simp at h ⊢; omega) (by simpa using h)]
      rfl

/-- Claim C3: whenever the first and last aligned observations fall on
the same date (elapsed days equal 0), calc_annual_return fails with
the zero-elapsed-period error (the ZeroDivisionError raised by the
integer division 365 / num_of_days) instead of silently dividing by
zero. -/
theorem annual_return_zero_elapsed (df : List Obs) (h : df ≠ [])
    (hd : (df.getLast h).date = (df.head h).date) :
    calc_annual_return df = .error PipeError.zeroElapsedPeriod := by
  cases df with
  | nil => cases h rfl
  | cons a t =>
      simp only [List.head_cons] at hd
      simp only [calc_annual_return]
      rw [if_pos (by omega)]

/-- Witness for C3 at a one-row frame. -/
theorem annual_return_zero_elapsed_witness :
    calc_annual_return c3df = .error PipeError.zeroElapsedPeriod :=
  annual_return_zero_elapsed c3df (by simp [c3df]) (by simp [c3df])

/-- Claim C9: with a positive count of elapsed days d,
calc_annual_return returns (1 + r_total) to the power 365/d, minus 1,
where r_total is the last firm level over the first minus 1; and on
the concrete frame spanning exactly 365 days from level 100 to level
110 the result is exactly 1/10. -/
theorem annual_return_formula :
    (∀ (df : List Obs) (h : df ≠ []),
      0 < (df.getLast h).date - (df.head h).date →
      calc_annual_return df =
        .ok (Real.rpow (1 + ((df.getLast h).firm / (df.head h).firm - 1))
          (365 / ((((df.getLast h).date - (df.head h).date : ℤ) : ℤ) : ℝ)) - 1)) ∧
    calc_annual_return c9df = .ok (1 / 10) := by
  constructor
  · intro df h hd
    cases df with
    | nil => cases h rfl
    | cons a t =>
        simp only [List.head_cons, List.getLast_cons] at hd ⊢
        simp only [calc_annual_return]
        rw [if_neg (by omega)]
  · show calc_annual_return [⟨0, 100, 0, 0, 0, 0, 0⟩, ⟨365, 110, 0, 0, 0, 0, 0⟩] = _
    simp only [calc_annual_return]
    rw [if_neg (by simp [List.getLast])]
    have hlast : ([(⟨0, 100, 0, 0, 0, 0, 0⟩ : Obs), ⟨365, 110, 0, 0, 0, 0, 0⟩].getLast
        (List.cons_ne_nil _ _)) = (⟨365, 110, 0, 0, 0, 0, 0⟩ : Obs) := rfl
    rw [hlast]
    have h1 : (1 : ℝ) + ((110 : ℝ) / 100 - 1) = 11 / 10 := by norm_num
    have h2 : (365 : ℝ) / ((((365 : ℤ) - 0 : ℤ) : ℤ) : ℝ) = 1 := by norm_num
    show Except.ok (Real.rpow (1 + ((110 : ℝ) / 100 - 1))
      (365 / ((((365 : ℤ) - 0 : ℤ) : ℤ) : ℝ)) - 1) = _
    rw [h1, h2]
    have h3 : Real.rpow ((11 : ℝ) / 10) 1 = (11 : ℝ) / 10 := Real.rpow_one _
    rw [h3]
    norm_num

/-- Witness for C9: the general branch instantiated at the 365-day
frame. -/
theorem annual_return_formula_witness :
    calc_annual_return c9df =
      .ok (Real.rpow (1 + ((c9df.getLast (by simp [c9df])).firm /
          (c9df.head (by simp [c9df])).firm - 1))
        (365 / ((((c9df.getLast (by simp [c9df])).date -
          (c9df.head (by simp [c9df])).date : ℤ) : ℤ) : ℝ)) - 1) :=
  annual_return_formula.1 c9df (by simp [c9df]) (by simp [c9df])

/-- Claim C4 counterexample: on a frame whose r_firm column is
constant, the sample standard deviation is zero, yet calc_sharpe still
returns a number (in this real-number embedding the division by zero
yields 0; at runtime numpy returns a non-finite float), and
calc_treynor with beta equal to 0 likewise returns a number: no
DegenerateRatio failure exists in the code. -/
theorem ratio_degenerate_counterexample :
    seriesStd (c4df.map Obs.r_firm) = 0 ∧
    calc_sharpe c4df = 0 ∧ calc_treynor c4df 0 = 0 := by
  have hstd : seriesStd (c4df.map Obs.r_firm) = 0 := by
    simp only [c4df, List.map, seriesStd, seriesMean]
    norm_num
  refine ⟨hstd, ?_, ?_⟩
  · unfold calc_sharpe
    rw [hstd, div_zero]
  · unfold calc_treynor
    rw [div_zero]

/-- Claim C4 amended: calc_sharpe and calc_treynor perform no
degeneracy check; each unconditionally returns the quotient, and when
the sample standard deviation of r_firm (respectively beta) is zero
the division by zero is still performed (0 in this embedding, a
non-finite float at runtime) and no error is raised. -/
theorem ratio_degenerate_amended :
    (∀ df : List Obs, calc_sharpe df =
      (seriesMean (df.map Obs.r_firm) - seriesMean (df.map Obs.r_rf)) /
        seriesStd (df.map Obs.r_firm)) ∧
    (∀ df : List Obs, seriesStd (df.map Obs.r_firm) = 0 → calc_sharpe df = 0) ∧
    (∀ (df : List Obs) (b : ℝ), calc_treynor df b =
      (seriesMean (df.map Obs.r_firm) - seriesMean (df.map Obs.r_rf)) / b) ∧
    (∀ df : List Obs, calc_treynor df 0 = 0) := by
  refine ⟨fun df => rfl, fun df h => ?_, fun df b => rfl, fun df => ?_⟩
  · unfold calc_sharpe
    rw [h, div_zero]
  · unfold calc_treynor
    rw [div_zero]

/-- Witness for the C4 amended claim at a second constant frame. -/
theorem ratio_degenerate_amended_witness :
    calc_sharpe c4df2 = 0 ∧ calc_treynor c4df2 0 = 0 := by
  have hstd : seriesStd (c4df2.map Obs.r_firm) = 0 := by
    simp only [c4df2, List.map, seriesStd, seriesMean]
    norm_num
  exact ⟨ratio_degenerate_amended.2.1 c4df2 hstd, ratio_degenerate_amended.2.2.2 c4df2⟩

/-- Claim C6: for a frame with at least 2 observations, calc_sharpe is
the difference of the means of r_firm and r_rf divided by the sample
standard deviation of r_firm with the N-1 denominator, each written
out over the aligned observations. -/
theorem sharpe_sample_std (df : List Obs) (_h2 : 2 ≤ df.length) :
    calc_sharpe df =
      ((df.map Obs.r_firm).sum / (df.length : ℝ) -
        (df.map Obs.r_rf).sum / (df.length : ℝ)) /
      Real.sqrt ((((df.map Obs.r_firm).map
          (fun x => (x - (df.map Obs.r_firm).sum / (df.length : ℝ)) ^ 2)).sum) /
        ((df.length : ℝ) - 1)) := by
  simp only [calc_sharpe, seriesMean, seriesStd, List.length_map]

/-- Witness for C6 at a two-row frame. -/
theorem sharpe_sample_std_witness :
    2 ≤ c6df.length ∧
    calc_sharpe c6df =
      ((c6df.map Obs.r_firm).sum / (c6df.length : ℝ) -
        (c6df.map Obs.r_rf).sum / (c6df.length : ℝ)) /
      Real.sqrt ((((c6df.map Obs.r_firm).map
          (fun x => (x - (c6df.map Obs.r_firm).sum / (c6df.length : ℝ)) ^ 2)).sum) /
        ((c6df.length : ℝ) - 1)) :=
  ⟨by decide, sharpe_sample_std c6df (by decide)⟩

/-- Claim C7: on a price series with no missing data the return
column satisfies return i = level i over level i-1, minus 1, for every
index i greater than 0; the first return cell is missing (NaN, dropped
downstream by dropna after the merge); and the level column is kept
unchanged alongside. -/
theorem price_return_pct_change :
    (∀ (raw : List (ℤ × ℝ)) (i : ℕ), 0 < i → i < raw.length →
      ((mkPriceRows raw).map SRow.ret).getD i none =
        some ((raw.map Prod.snd).getD i 0 / (raw.map Prod.snd).getD (i - 1) 0 - 1)) ∧
    (∀ raw : List (ℤ × ℝ), raw ≠ [] →
      ((mkPriceRows raw).map SRow.ret).getD 0 none = none) ∧
    (∀ raw : List (ℤ × ℝ),
      (mkPriceRows raw).map SRow.level = raw.map (fun p => some p.2)) := by
  refine ⟨?_, ?_, mkPriceRows_level_col⟩
  · intro raw i h0 h
    rw [mkPriceRows_ret_col]
    cases i with
    | zero => cases h0
    | succ j =>
        have := pctChange_getD_succ (raw.map Prod.snd) j (by simpa using h)
        simpa using this
  · intro raw h
    rw [mkPriceRows_ret_col]
    cases raw with
    | nil => cases h rfl
    | cons p t => rfl

/-- Witness for C7 at a two-row price series. -/
theorem price_return_pct_change_witness :
    ((mkPriceRows [((0 : ℤ), (100 : ℝ)), ((1 : ℤ), (110 : ℝ))]).map SRow.ret).getD 1 none =
      some (([((0 : ℤ), (100 : ℝ)), ((1 : ℤ), (110 : ℝ))].map Prod.snd).getD 1 0 /
        ([((0 : ℤ), (100 : ℝ)), ((1 : ℤ), (110 : ℝ))].map Prod.snd).getD 0 0 - 1) :=
  price_return_pct_change.1 [((0 : ℤ), (100 : ℝ)), ((1 : ℤ), (110 : ℝ))] 1
    (by decide) (by decide)

/-- Claim C8: the yield transform applies independently per row, with
the output level the input level over 100 and the output return
(1 + level/100) to the power 1/365, minus 1; in particular a level of
0 yields a return of 0 and a level of 100 yields 2 to the power 1/365,
minus 1. -/
theorem yield_return_per_row :
    (∀ (raw : List (ℤ × ℝ)) (i : ℕ), i < raw.length →
      ((mkReturnRows raw).getD i ⟨0, none, none⟩).level =
        some ((raw.getD i (0, 0)).2 / 100) ∧
      ((mkReturnRows raw).getD i ⟨0, none, none⟩).ret =
        some (Real.rpow (1 + (raw.getD i (0, 0)).2 / 100) (1 / 365) - 1)) ∧
    Real.rpow (1 + (0 : ℝ) / 100) (1 / 365) - 1 = 0 ∧
    Real.rpow (1 + (100 : ℝ) / 100) (1 / 365) - 1 = Real.rpow 2 (1 / 365) - 1 := by
  refine ⟨?_, ?_, ?_⟩
  · intro raw i h
    unfold mkReturnRows
    rw [getD_map_of_lt _ _ (0, 0) raw i h]
    exact ⟨rfl, rfl⟩
  · have h1 : (1 : ℝ) + (0 : ℝ) / 100 = 1 := by norm_num
    rw [h1]
    have h2 : Real.rpow (1 : ℝ) (1 / 365) = 1 := Real.one_rpow _
    rw [h2]
    norm_num
  · norm_num

/-- Witness for C8 at a one-row series with level 0. -/
theorem yield_return_per_row_witness :
    ((mkReturnRows [((0 : ℤ), (0 : ℝ))]).getD 0 ⟨0, none, none⟩).level =
      some (([((0 : ℤ), (0 : ℝ))].getD 0 (0, 0)).2 / 100) ∧
    ((mkReturnRows [((0 : ℤ), (0 : ℝ))]).getD 0 ⟨0, none, none⟩).ret =
      some (Real.rpow (1 + ([((0 : ℤ), (0 : ℝ))].getD 0 (0, 0)).2 / 100) (1 / 365) - 1) :=
  yield_return_per_row.1 [((0 : ℤ), (0 : ℝ))] 0 (by decide)

/-- Claim C1: evaluation of the two fits on the three-row frame c1df.
The code (patsy term-removal semantics, regressing raw r_firm on raw
r_market) returns alpha 0 and beta 3/2, while the ordinary least
squares on per-row excess returns demanded by the claim returns alpha
1/2 and beta 1/2: the code diverges from the claimed regression even
though the frame has 3 rows and nonzero variance of
r_market - r_rf. -/
theorem market_model_divergence :
    fit_market_model c1df = ((0 : ℝ), (3 / 2 : ℝ)) ∧
    fit_market_model_spec c1df = ((1 / 2 : ℝ), (1 / 2 : ℝ)) ∧
    fit_market_model c1df ≠ fit_market_model_spec c1df := by
  have h1 : fit_market_model c1df = ((0 : ℝ), (3 / 2 : ℝ)) := by
    simp only [c1df, fit_market_model, ols_fit, seriesMean, List.map, List.zip,
      List.zipWith, List.sum_cons, List.sum_nil, List.length_cons, List.length_nil]
    norm_num [Prod.ext_iff]
  have h2 : fit_market_model_spec c1df = ((1 / 2 : ℝ), (1 / 2 : ℝ)) := by
    simp only [c1df, fit_market_model_spec, ols_fit, seriesMean, List.map, List.zip,
      List.zipWith, List.sum_cons, List.sum_nil, List.length_cons, List.length_nil]
    norm_num [Prod.ext_iff]
  refine ⟨h1, h2, ?_⟩
  rw [h1, h2]
  intro hc
  rw [Prod.mk.injEq] at hc
  norm_num at hc

/-- Helper: a completed run of the main loop appends exactly the firm
names of the processed rows, in input order, and keeps the eight
accumulator lists the same length. -/
theorem run_loop_ok_general (rows : List RowInput) :
    ∀ s acc : Accum, run_loop rows s = .ok acc →
      acc.firms = s.firms ++ rows.map RowInput.firmName ∧
      (rectangular s → rectangular acc) := by
  induction rows with
  | nil =>
      intro s acc h
      simp only [run_loop, Except.ok.injEq] at h
      subst h
      exact ⟨by simp, fun hs => hs⟩
  | cons r rs ih =>
      intro s acc h
      cases hpr : process_row r with
      | error e => rw [run_loop, hpr] at h; cases h
      | ok m =>
          rw [run_loop, hpr] at h
          obtain ⟨h1, h2⟩ := ih _ _ h
          constructor
          · rw [h1]
            simp [append_data, List.append_assoc]
          · intro hs
            apply h2
            simp only [rectangular, append_data, List.length_append,
              List.length_cons, List.length_nil] at hs ⊢
            omega

/-- Claim C2 counterexample: in the batch made of a failing row
followed by a processable row, the loop dies with the first error and
no accumulator result is produced at all, although the second row
processes successfully on its own; the claimed report containing
exactly the successful firms therefore never exists. -/
theorem batch_abort_counterexample :
    run_loop [badRow, goodRow] emptyAccum = .error PipeError.dataUnavailable ∧
    (∃ m, process_row goodRow = .ok m) :=
  ⟨rfl, ⟨_, rfl⟩⟩

/-- Claim C2 amended: the main loop catches nothing, so the first
error raised while processing any configuration row aborts the whole
batch and later rows are never processed; only a batch in which every
row succeeds reaches the final report, which then contains every
processed firm in input order. -/
theorem batch_abort_amended :
    (∀ (r : RowInput) (rs : List RowInput) (s : Accum) (e : PipeError),
      process_row r = .error e → run_loop (r :: rs) s = .error e) ∧
    (∀ (rows : List RowInput) (s : Accum),
      (∀ r ∈ rows, ∃ m, process_row r = .ok m) →
      ∃ acc, run_loop rows s = .ok acc ∧
        acc.firms = s.firms ++ rows.map RowInput.firmName) := by
  constructor
  · intro r rs s e h
    rw [run_loop, h]
  · intro rows
    induction rows with
    | nil => intro s _; exact ⟨s, rfl, by simp⟩
    | cons r rs ih =>
        intro s h
        obtain ⟨m, hm⟩ := h r (List.mem_cons_self r rs)
        obtain ⟨acc, hacc, hfirms⟩ :=
          ih (append_data s r.firmName r.startDate r.endDate
            m.alpha m.beta m.sharpe m.treynor m.annual)
            (fun x hx => h x (List.mem_cons_of_mem r hx))
        refine ⟨acc, ?_, ?_⟩
        · rw [run_loop, hm]
          exact hacc
        · rw [hfirms]
          simp [append_data, List.append_assoc]

/-- Witness for the C2 amended claim: a batch of one processable row
completes and reports that firm. -/
theorem batch_abort_amended_witness :
    ∃ acc, run_loop [goodRow2] emptyAccum = .ok acc ∧
      acc.firms = emptyAccum.firms ++ [goodRow2].map RowInput.firmName :=
  batch_abort_amended.2 [goodRow2] emptyAccum (by
    intro r hr
    rw [List.mem_singleton] at hr
    subst hr
    exact ⟨_, rfl⟩)

/-- Claim C10: append_data grows each of the eight accumulator lists
by exactly one element, so equal lengths are preserved; consequently
any completed run of the main loop started from the module-load state
yields a rectangular result whose firms column lists exactly the
processed configuration rows in input order. -/
theorem accumulators_rectangular :
    (∀ (s : Accum) (f st en : String) (a b sh tr an : ℝ),
      (append_data s f st en a b sh tr an).firms.length = s.firms.length + 1 ∧
      (append_data s f st en a b sh tr an).start_dates.length = s.start_dates.length + 1 ∧
      (append_data s f st en a b sh tr an).end_dates.length = s.end_dates.length + 1 ∧
      (append_data s f st en a b sh tr an).alphas.length = s.alphas.length + 1 ∧
      (append_data s f st en a b sh tr an).betas.length = s.betas.length + 1 ∧
      (append_data s f st en a b sh tr an).sharpes.length = s.sharpes.length + 1 ∧
      (append_data s f st en a b sh tr an).treynors.length = s.treynors.length + 1 ∧
      (append_data s f st en a b sh tr an).annuals.length = s.annuals.length + 1) ∧
    (∀ (rows : List RowInput) (acc : Accum),
      run_loop rows emptyAccum = .ok acc →
      acc.firms = rows.map RowInput.firmName ∧ rectangular acc) := by
  constructor
  · intro s f st en a b sh tr an
    simp [append_data]
  · intro rows acc h
    obtain ⟨h1, h2⟩ := run_loop_ok_general rows emptyAccum acc h
    refine ⟨by simpa [emptyAccum] using h1, h2 ?_⟩
    simp [rectangular, emptyAccum]

/-- Witness for C10 at the empty batch. -/
theorem accumulators_rectangular_witness :
    emptyAccum.firms = List.map RowInput.firmName [] ∧ rectangular emptyAccum :=
  accumulators_rectangular.2 [] emptyAccum rfl

/-- Helper: a successful date lookup returns a member of the list
carrying the looked-up date. -/
theorem lookupDate_mem {d : ℤ} :
    ∀ {l : List SRow} {b : SRow}, lookupDate d l = some b → b ∈ l ∧ b.date = d := by
  intro l
  induction l with
  | nil => intro b h; cases h
  | cons x t ih =>
      intro b h
      by_cases hx : x.date = d
      · rw [lookupDate, if_pos hx] at h
        cases h
        exact ⟨List.mem_cons_self x t, hx⟩
      · rw [lookupDate, if_neg hx] at h
        obtain ⟨hm, hd⟩ := ih h
        exact ⟨List.mem_cons_of_mem x hm, hd⟩

/-- Helper: when dates are unique, the lookup finds exactly the member
carrying the looked-up date. -/
theorem lookupDate_of_nodup {d : ℤ} :
    ∀ {l : List SRow} {b : SRow}, (l.map SRow.date).Nodup → b ∈ l → b.date = d →
      lookupDate d l = some b := by
  intro l
  induction l with
  | nil => intro b _ hb _; cases hb
  | cons x t ih =>
      intro b hn hb hd
      rw [List.map_cons, List.nodup_cons] at hn
      by_cases hx : x.date = d
      · rw [lookupDate, if_pos hx]
        cases List.mem_cons.mp hb with
        | inl h => rw [h]
        | inr h =>
            exfalso
            have hmem : b.date ∈ t.map SRow.date := List.mem_map_of_mem SRow.date h
            rw [hd, ← hx] at hmem
            exact hn.1 hmem
      · rw [lookupDate, if_neg hx]
        cases List.mem_cons.mp hb with
        | inl h => subst h; exact absurd hd hx
        | inr h => exact ih hn.2 h hd

/-- Helper: a merged row exists exactly when built from three complete
rows, and it keeps the date of the firm row. -/
theorem rowJoin_eq_some {a b c : SRow} {o : Obs} (h : rowJoin a b c = some o) :
    complete a = true ∧ complete b = true ∧ complete c = true ∧ o.date = a.date := by
  cases ha1 : a.level <;> cases ha2 : a.ret <;> cases hb1 : b.level <;>
    cases hb2 : b.ret <;> cases hc1 : c.level <;> cases hc2 : c.ret <;>
    simp_all [rowJoin, complete]
  rw [← h]

/-- Helper: three complete rows sharing responsibility for one date
always produce a merged row at the firm date. -/
theorem rowJoin_of_complete {a b c : SRow} (ha : complete a = true)
    (hb : complete b = true) (hc : complete c = true) :
    ∃ o, rowJoin a b c = some o ∧ o.date = a.date := by
  unfold complete at ha hb hc
  rw [Bool.and_eq_true] at ha hb hc
  obtain ⟨fl, hfl⟩ := Option.isSome_iff_exists.mp ha.1
  obtain ⟨fr, hfr⟩ := Option.isSome_iff_exists.mp ha.2
  obtain ⟨ml, hml⟩ := Option.isSome_iff_exists.mp hb.1
  obtain ⟨mr, hmr⟩ := Option.isSome_iff_exists.mp hb.2
  obtain ⟨rl, hrl⟩ := Option.isSome_iff_exists.mp hc.1
  obtain ⟨rr, hrr⟩ := Option.isSome_iff_exists.mp hc.2
  refine ⟨⟨a.date, fl, ml, rl, fr, mr, rr⟩, ?_, rfl⟩
  unfold rowJoin
  rw [hfl, hfr, hml, hmr, hrl, hrr]

/-- Helper: a kept aligned row certifies complete rows at its date in
all three inputs. -/
theorem alignRow_eq_some {m r : List SRow} {a : SRow} {o : Obs}
    (h : alignRow m r a = some o) :
    complete a = true ∧ o.date = a.date ∧
    (∃ b ∈ m, b.date = a.date ∧ complete b = true) ∧
    (∃ c ∈ r, c.date = a.date ∧ complete c = true) := by
  unfold alignRow at h
  rw [Option.bind_eq_some] at h
  obtain ⟨b, hb, h⟩ := h
  rw [Option.bind_eq_some] at h
  obtain ⟨c, hc, h⟩ := h
  obtain ⟨hbm, hbd⟩ := lookupDate_mem hb
  obtain ⟨hcr, hcd⟩ := lookupDate_mem hc
  obtain ⟨hac, hbc, hcc, hod⟩ := rowJoin_eq_some h
  exact ⟨hac, hod, ⟨b, hbm, hbd, hbc⟩, ⟨c, hcr, hcd, hcc⟩⟩

/-- Helper: complete rows at a common date in all three inputs produce
a kept aligned row at that date, when dates are unique. -/
theorem alignRow_of_complete {m r : List SRow} {a : SRow}
    (hm : (m.map SRow.date).Nodup) (hr : (r.map SRow.date).Nodup)
    (ha : complete a = true)
    (hb : ∃ b ∈ m, b.date = a.date ∧ complete b = true)
    (hc : ∃ c ∈ r, c.date = a.date ∧ complete c = true) :
    ∃ o, alignRow m r a = some o ∧ o.date = a.date := by
  obtain ⟨b, hbm, hbd, hbc⟩ := hb
  obtain ⟨c, hcr, hcd, hcc⟩ := hc
  obtain ⟨o, ho, hod⟩ := rowJoin_of_complete ha hbc hcc
  refine ⟨o, ?_, hod⟩
  unfold alignRow
  rw [lookupDate_of_nodup hm hbm hbd, Option.some_bind,
    lookupDate_of_nodup hr hcr hcd, Option.some_bind, ho]

/-- Helper: unfolding of the aligner on a first firm row. -/
theorem align_cons (m r : List SRow) (a : SRow) (t : List SRow) :
    align (a :: t) m r =
      match alignRow m r a with
      | some o => o :: align t m r
      | none => align t m r := by
  rw [align, List.filterMap_cons]
  cases alignRow m r a <;> rfl

/-- Helper: the aligned dates are a sublist of the firm dates. -/
theorem align_dates_sublist (m r : List SRow) :
    ∀ f : List SRow, List.Sublist ((align f m r).map Obs.date) (f.map SRow.date) := by
  intro f
  induction f with
  | nil => simp [align]
  | cons a t ih =>
      rw [align_cons]
      cases h : alignRow m r a with
      | none => exact ih.cons _
      | some o =>
          have hod := (alignRow_eq_some h).2.1
          simp only [List.map_cons, hod]
          exact ih.cons₂ _

/-- Helper: date-set characterization of the aligner under unique
dates in the market and risk-free inputs. -/
theorem mem_align_dates (f m r : List SRow)
    (hm : (m.map SRow.date).Nodup) (hr : (r.map SRow.date).Nodup) (d : ℤ) :
    d ∈ (align f m r).map Obs.date ↔
      ((∃ a ∈ f, a.date = d ∧ complete a = true) ∧
       (∃ b ∈ m, b.date = d ∧ complete b = true) ∧
       (∃ c ∈ r, c.date = d ∧ complete c = true)) := by
  constructor
  · intro h
    rw [List.mem_map] at h
    obtain ⟨o, ho, hod⟩ := h
    rw [align, List.mem_filterMap] at ho
    obtain ⟨a, haf, hao⟩ := ho
    obtain ⟨hac, hoa, hb, hc⟩ := alignRow_eq_some hao
    subst hod
    refine ⟨⟨a, haf, hoa.symm, hac⟩, ?_, ?_⟩
    · obtain ⟨b, hbm, hbd, hbc⟩ := hb
      exact ⟨b, hbm, hbd.trans hoa.symm, hbc⟩
    · obtain ⟨c, hcr, hcd, hcc⟩ := hc
      exact ⟨c, hcr, hcd.trans hoa.symm, hcc⟩
  · rintro ⟨⟨a, haf, had, hac⟩, hb, hc⟩
    subst had
    obtain ⟨o, ho, hod⟩ := alignRow_of_complete hm hr hac hb hc
    rw [List.mem_map]
    refine ⟨o, ?_, hod⟩
    rw [align, List.mem_filterMap]
    exact ⟨a, haf, ho⟩

/-- Claim C5: for ascending-date inputs, the aligned date set is
exactly the set of dates present with complete (non-missing) rows in
all three inputs, the aligned rows are sorted ascending by date, and
the aligned length is at most the minimum of the three input
lengths. -/
theorem aligner_spec (f m r : List SRow)
    (hf : (f.map SRow.date).Pairwise (· < ·))
    (hm : (m.map SRow.date).Pairwise (· < ·))
    (hr : (r.map SRow.date).Pairwise (· < ·)) :
    (∀ d : ℤ, d ∈ (align f m r).map Obs.date ↔
      ((∃ a ∈ f, a.date = d ∧ complete a = true) ∧
       (∃ b ∈ m, b.date = d ∧ complete b = true) ∧
       (∃ c ∈ r, c.date = d ∧ complete c = true))) ∧
    ((align f m r).map Obs.date).Pairwise (· < ·) ∧
    (align f m r).length ≤ min f.length (min m.length r.length) := by
  have hmnd : (m.map SRow.date).Nodup := hm.imp (fun h => ne_of_lt h)
  have hrnd : (r.map SRow.date).Nodup := hr.imp (fun h => ne_of_lt h)
  have hsorted : ((align f m r).map Obs.date).Pairwise (· < ·) :=
    hf.sublist (align_dates_sublist m r f)
  have hnd : ((align f m r).map Obs.date).Nodup :=
    hsorted.imp (fun h => ne_of_lt h)
  have hlf : (align f m r).length ≤ f.length := by
    have := (align_dates_sublist m r f).length_le
    simpa using this
  have hlm : (align f m r).length ≤ m.length := by
    have hsub : ((align f m r).map Obs.date) ⊆ (m.map SRow.date) := by
      intro d hd
      obtain ⟨_, ⟨b, hbm, hbd, _⟩, _⟩ := (mem_align_dates f m r hmnd hrnd d).mp hd
      rw [List.mem_map]
      exact ⟨b, hbm, hbd⟩
    have := (hnd.subperm hsub).length_le
    simpa using this
  have hlr : (align f m r).length ≤ r.length := by
    have hsub : ((align f m r).map Obs.date) ⊆ (r.map SRow.date) := by
      intro d hd
      obtain ⟨_, _, ⟨c, hcr, hcd, _⟩⟩ := (mem_align_dates f m r hmnd hrnd d).mp hd
      rw [List.mem_map]
      exact ⟨c, hcr, hcd⟩
    have := (hnd.subperm hsub).length_le
    simpa using this
  exact ⟨mem_align_dates f m r hmnd hrnd, hsorted,
    le_min hlf (le_min hlm hlr)⟩

/-- Witness for C5 at three two-row series. -/
theorem aligner_spec_witness :
    (∀ d : ℤ, d ∈ (align c5f c5m c5r).map Obs.date ↔
      ((∃ a ∈ c5f, a.date = d ∧ complete a = true) ∧
       (∃ b ∈ c5m, b.date = d ∧ complete b = true) ∧
       (∃ c ∈ c5r, c.date = d ∧ complete c = true))) ∧
    ((align c5f c5m c5r).map Obs.date).Pairwise (· < ·) ∧
    (align c5f c5m c5r).length ≤ min c5f.length (min c5m.length c5r.length) :=
  aligner_spec c5f c5m c5r (by decide) (by decide) (by decide)

end Capm
